import Mathlib

/-!
Verification of the sacai chess engine (src/eval.py and src/communication.py)
against its natural-language specification.

The Python source is shallowly embedded: the evaluator (eval.py) operates on
an abstract board interface (piece lookup, side to move, and the rules
library's capture predicates), and the UCI dispatcher (communication.py) is
embedded as a pure function from an input line to an outcome (normal return
with output, process exit, or an uncaught exception).  Python string
operations (strip, split(" "), " ".join, slicing, startswith) are modelled by
executable functions over the character list of a string.  Exceptions
(IndexError from list indexing, the evaluator's explicit raises, FEN parse
failures, illegal-move failures) are modelled with Option / an error outcome.
-/

namespace Sacai

/-! ## Python string primitives -/

/-- Model of Python `s.split(sep)` for a one-character separator, at the
character-list level: adjacent separators and separators at either end produce
empty pieces, and `split` of the empty string is `[[]]`. -/
def pySplitChars (sep : Char) : List Char → List (List Char)
  | [] => [[]]
  | c :: cs =>
    match pySplitChars sep cs with
    | [] => [[]]
    | t :: ts => if c = sep then [] :: t :: ts else (c :: t) :: ts

/-- Model of Python `sep.join(pieces)` for a one-character separator, at the
character-list level. -/
def pyJoinChars (sep : Char) : List (List Char) → List Char
  | [] => []
  | [l] => l
  | l :: l' :: ls => l ++ sep :: pyJoinChars sep (l' :: ls)

/-- Model of Python `s.split(" ")` on strings. -/
def pySplitStr (sep : Char) (s : String) : List String :=
  (pySplitChars sep s.data).map String.mk

/-- Model of Python `" ".join(l)` on strings. -/
def pyJoin (sep : Char) (l : List String) : String :=
  String.mk (pyJoinChars sep (l.map String.data))

/-- Model of Python `s.strip()`: drop whitespace from both ends. -/
def pyStrip (s : String) : String :=
  String.mk (((s.data.dropWhile Char.isWhitespace).reverse.dropWhile
    Char.isWhitespace).reverse)

/-- Model of Python slicing `s[0:n]` on a string. -/
def strTake (s : String) (n : Nat) : String :=
  String.mk (s.data.take n)

/-- Character-list prefix test (Boolean). -/
def isPre : List Char → List Char → Bool
  | [], _ => true
  | _ :: _, [] => false
  | a :: as, b :: bs => a == b && isPre as bs

/-- Model of Python `s.startswith(p)`. -/
def pyStartsWith (p s : String) : Bool :=
  isPre p.data s.data

/-- Model of Python slicing `l[a:b]` on lists. -/
def slice (l : List String) (a b : Nat) : List String :=
  (l.drop a).take (b - a)

/-! ## Evaluator data model (eval.py) -/

/-- The six standard chess piece types (the rules library's piece-type
enumeration). -/
inductive PieceType where
  | pawn
  | knight
  | bishop
  | rook
  | queen
  | king
deriving DecidableEq, Repr

/-- Piece color (the rules library's `chess.WHITE` / `chess.BLACK`). -/
inductive Color where
  | white
  | black
deriving DecidableEq, Repr

/-- A piece: a (type, color) pair. -/
structure Piece where
  pieceType : PieceType
  color : Color
deriving DecidableEq, Repr

/-- A square index, 0 = a1 … 63 = h8 (rank-major), per the rules library. -/
abbrev Square := Fin 64

/-- A move: origin square, destination square, optional promotion piece type
(the rules library's `chess.Move`). -/
structure Move where
  fromSq : Square
  toSq : Square
  promotion : Option PieceType
deriving DecidableEq, Repr

/-- Modelled from the spec: the slice of the external rules library's board
interface that eval.py uses: `piece_at`, `turn`, and the derived move
predicates `is_capture` and `is_en_passant`.  The evaluator treats these as a
black box, so they are unconstrained fields here. -/
structure EBoard where
  pieceAt : Square → Option Piece
  turn : Color
  isCapture : Move → Bool
  isEnPassant : Move → Bool

/-- Material values (eval.py `piece_value`). -/
def piece_value : PieceType → Int
  | .pawn => 112
  | .rook => 510
  | .knight => 298
  | .bishop => 335
  | .queen => 892
  | .king => -999

/-- Piece-square table `pawnEvalWhite`, copied verbatim from eval.py. -/
def pawnEvalWhite : List Int := [
  0, 0, 0, 0, 0, 0, 0, 0,
  5, 12, 10, -20, -20, 10, 12, 5,
  5, 30, -10, 0, 0, -10, 30, 5,
  0, 0, 65, 65, 65, 65, 0, 0,
  5, 5, 23, 113, 122, 112, 5, 5,
  10, 30, 20, 150, 150, 120, 30, 10,
  50, 50, 50, 150, 150, 150, 50, 50,
  202, 202, 202, 205, 205, 205, 205, 205]

/-- Reversed pawn table for black (eval.py `pawnEvalBlack`). -/
def pawnEvalBlack : List Int := pawnEvalWhite.reverse

/-- Piece-square table `knightEval`, copied verbatim from eval.py: a single
table used for both colors (it is not reversed for black, and it is not
left-right or top-bottom symmetric). -/
def knightEval : List Int := [
  -50, -40, -30, -30, -30, -30, -40, -50,
  -40, -20, 0, 0, 0, 0, -20, -40,
  -30, 0, 10, 15, 15, 10, -40, -30,
  -30, 5, 15, 20, 20, 15, 5, -30,
  -30, 0, 15, 20, 20, 15, 0, -30,
  -30, 5, -5, 15, 15, 10, -5, -30,
  -40, -20, 0, 5, 5, 0, -20, -40,
  -50, -25, -30, -30, -30, -30, -25, -50]

/-- Piece-square table `bishopEvalWhite`, copied verbatim from eval.py. -/
def bishopEvalWhite : List Int := [
  -20, -10, -10, -10, -10, -10, -10, -20,
  -10, 40, 0, 0, 0, 0, 40, -10,
  -10, 10, 10, 10, 10, 10, 10, -10,
  -10, 0, 10, 10, 10, 10, 0, -10,
  -10, 5, 5, 10, 10, 5, 5, -10,
  -10, 0, 5, 10, 10, 5, 0, -10,
  -10, 12, 0, 0, 0, 0, 12, -10,
  -20, -10, -10, -10, -10, -10, -10, -20]

/-- Reversed bishop table for black (eval.py `bishopEvalBlack`). -/
def bishopEvalBlack : List Int := bishopEvalWhite.reverse

/-- Piece-square table `rookEvalWhite`, copied verbatim from eval.py. -/
def rookEvalWhite : List Int := [
  0, 0, 0, 5, 5, 0, 0, 0,
  -5, 0, 0, 0, 0, 0, 0, -5,
  -5, 10, 20, 5, 15, 10, 0, -5,
  -5, 10, 20, 15, 20, 20, 10, -5,
  -5, 15, 20, 30, 20, 20, 15, -5,
  -5, 30, 25, 20, 30, 20, 20, -5,
  5, 50, 50, 50, 50, 50, 50, 5,
  0, 0, 0, 0, 0, 0, 0, 0]

/-- Reversed rook table for black (eval.py `rookEvalBlack`). -/
def rookEvalBlack : List Int := rookEvalWhite.reverse

/-- Piece-square table `queenEval` (normal phase), copied verbatim from
eval.py. -/
def queenEval : List Int := [
  -20, -10, -10, -5, -5, -10, -10, -20,
  -10, 0, 0, 0, 0, 0, 0, -10,
  -10, 0, 5, 5, 5, 5, 0, -10,
  -5, 0, 5, 5, 5, 5, 0, -5,
  0, 0, 5, 5, 5, 5, 0, -5,
  -10, 5, 5, 5, 5, 5, 0, -10,
  -10, 0, 5, 0, 0, 0, 0, -10,
  -20, -10, -10, -5, -5, -10, -10, -20]

/-- Piece-square table `queenEvalEndGameWhite`, copied verbatim from eval.py,
line breaks and all: it contains 66 entries, not 64. -/
def queenEvalEndGameWhite : List Int := [
  -10, -9, -9, -5, -5, -9, -5, -10,
  1, 4, 5, 9, 11, 13, 12, 6, 1,
  4, 15, 27, 29, 33, 39, 45, 12,
  9, 33, 25, 44, 66, 79, 51, 32,
  0, 22, 12, 15, 19, 33, 32, 14,
  -9, 10, 3, 4, 8, 9, 15, -8,
  -5, 13, 4, 5, 7, 9, 2, 5, 2,
  -10, -15, 13, 19, 21, 18, 11, 1]

/-- Reversed queen table for black (eval.py `queenEvalBlack`). -/
def queenEvalBlack : List Int := queenEval.reverse

/-- Reversed endgame queen table for black (eval.py
`queenEvalEndGameBlack`). -/
def queenEvalEndGameBlack : List Int := queenEvalEndGameWhite.reverse

/-- Piece-square table `kingEvalWhite`, copied verbatim from eval.py. -/
def kingEvalWhite : List Int := [
  20, 30, 10, 0, 0, 10, 30, 20,
  20, 20, 0, 0, 0, 0, 20, 20,
  -10, -20, -20, -20, -20, -20, -20, -10,
  20, -30, -30, -40, -40, -30, -30, -20,
  -30, -40, -40, -50, -50, -40, -40, -30,
  -30, -40, -40, -50, -50, -40, -40, -30,
  -30, -40, -40, -50, -50, -40, -40, -30,
  -30, -40, -40, -50, -50, -40, -40, -30]

/-- Reversed king table for black (eval.py `kingEvalBlack`). -/
def kingEvalBlack : List Int := kingEvalWhite.reverse

/-- Piece-square table `kingEvalEndGameWhite`, copied verbatim from
eval.py. -/
def kingEvalEndGameWhite : List Int := [
  50, -30, -30, -30, -30, -30, -30, -50,
  -30, -30, 0, 0, 0, 0, -30, -30,
  -30, -10, 20, 60, 60, 20, -10, -30,
  -30, -10, 30, 90, 90, 30, -10, -30,
  -30, -10, 30, 90, 90, 30, -10, -30,
  -30, -10, 20, 60, 60, 20, -10, -30,
  -30, -20, -10, 0, 0, -10, -20, -30,
  -50, -40, -30, -20, -20, -30, -40, -50]

/-- Reversed endgame king table for black (eval.py `kingEvalEndGameBlack`). -/
def kingEvalEndGameBlack : List Int := kingEvalEndGameWhite.reverse

/-! ## Evaluator operations (eval.py) -/

/-- The `mapping` selection chain of eval.py `evaluate_piece` (its sequence
of piece-type tests, each picking the color- and phase-appropriate table). -/
def pieceTable (piece : Piece) (end_game : Bool) : List Int :=
  match piece.pieceType with
  | .pawn => if piece.color = .white then pawnEvalWhite else pawnEvalBlack
  | .knight => knightEval
  | .bishop =>
      if piece.color = .white then bishopEvalWhite else bishopEvalBlack
  | .rook => if piece.color = .white then rookEvalWhite else rookEvalBlack
  | .queen =>
      if end_game then
        if piece.color = .white then queenEvalEndGameWhite
        else queenEvalEndGameBlack
      else
        if piece.color = .white then queenEval else queenEvalBlack
  | .king =>
      if end_game then
        if piece.color = .white then kingEvalEndGameWhite
        else kingEvalEndGameBlack
      else
        if piece.color = .white then kingEvalWhite else kingEvalBlack

/-- Eval.py `evaluate_piece`: select the table, then index `mapping[square]`.
Python list indexing raises IndexError when out of range, modelled by
`List.get?` returning `none`. -/
def evaluate_piece (piece : Piece) (square : Square) (end_game : Bool) :
    Option Int :=
  (pieceTable piece end_game).get? square.val

/-- Eval.py `evaluate_capture`: en-passant captures are valued at the pawn
material value; otherwise the captured piece's material value minus the
capturing piece's, with `none` modelling the raised exception when either
square is empty. -/
def evaluate_capture (board : EBoard) (move : Move) : Option Int :=
  if board.isEnPassant move then some (piece_value .pawn)
  else
    match board.pieceAt move.toSq, board.pieceAt move.fromSq with
    | some t, some f => some (piece_value t.pieceType - piece_value f.pieceType)
    | _, _ => none

/-- Result type of eval.py `move_value`: the Python function returns either a
float infinity (for promotions) or a finite integer-valued score. -/
inductive MoveVal where
  | negInf
  | posInf
  | fin (v : Int)
deriving DecidableEq, Repr

/-- Eval.py `move_value`: promotions are infinitely good for the mover;
otherwise the piece-square change plus any capture value, negated for black,
with `none` modelling the raised exception when the origin square is empty
(or an exception from `evaluate_capture`). -/
def move_value (board : EBoard) (move : Move) (endgame : Bool) :
    Option MoveVal :=
  if move.promotion.isSome then
    some (if board.turn = .black then .negInf else .posInf)
  else
    match board.pieceAt move.fromSq with
    | none => none
    | some piece =>
      match evaluate_piece piece move.fromSq endgame,
            evaluate_piece piece move.toSq endgame with
      | some fromValue, some toValue =>
        let position_change := toValue - fromValue
        let captureValue? : Option Int :=
          if board.isCapture move then evaluate_capture board move else some 0
        match captureValue? with
        | none => none
        | some capture_value =>
          let current_move_value := capture_value + position_change
          some (.fin (if board.turn = .black then -current_move_value
                      else current_move_value))
      | _, _ => none

/-- The square list `chess.SQUARES` (0 … 63). -/
def SQUARES : List Square := List.finRange 64

/-- One step of the piece-counting loop of eval.py `check_end_game`: the pair
holds the queen count and the minor-piece count. -/
def endGameStep (board : EBoard) (c : Nat × Nat) (square : Square) :
    Nat × Nat :=
  match board.pieceAt square with
  | some piece =>
    ((if piece.pieceType = .queen then c.1 + 1 else c.1),
     (if piece.pieceType = .bishop ∨ piece.pieceType = .knight then c.2 + 1
      else c.2))
  | none => c

/-- Eval.py `check_end_game`: count queens and minor pieces over all squares;
endgame iff there are no queens, or exactly two queens and at most one minor
piece. -/
def check_end_game (board : EBoard) : Bool :=
  let counts := SQUARES.foldl (endGameStep board) (0, 0)
  counts.1 = 0 ∨ (counts.1 = 2 ∧ counts.2 ≤ 1)

/-- Eval.py `evaluate_board`: sum material plus piece-square value over all
occupied squares, positive for white and negative for black, with `none`
modelling a (never occurring) IndexError from table indexing. -/
def evaluate_board (board : EBoard) : Option Int :=
  let end_game := check_end_game board
  SQUARES.foldl (fun acc square =>
    match acc with
    | none => none
    | some total =>
      match board.pieceAt square with
      | none => some total
      | some piece =>
        match evaluate_piece piece square end_game with
        | none => none
        | some pv =>
          let value := piece_value piece.pieceType + pv
          some (total + (if piece.color = .white then value else -value)))
    (some 0)

/-! ## UCI session controller (communication.py) -/

/-- Modelled from the spec: the external rules library's board, reduced to
the surface the controller uses, namely its serialized FEN string (the spec
requires the library to provide an exact FEN round trip). -/
structure Board where
  fenStr : String
deriving DecidableEq, Repr

/-- The standard initial position's FEN (the board produced by
`chess.Board()` / `board.reset()`). -/
def startFen : String := "rnbqkbnr/pppppppp/8/8/8/8/PPPPPPPP/RNBQKBNR w KQkq - 0 1"

/-- The freshly constructed / reset board. -/
def Board.initial : Board := ⟨startFen⟩

/-- Modelled from the spec: a FEN string accepted by the rules library's
parser consists of six space-separated nonempty fields. -/
def validFen (s : String) : Bool :=
  (pySplitStr ' ' s).length = 6 ∧ ∀ t ∈ pySplitStr ' ' s, t ≠ ""

/-- Modelled from the spec: the rules library's `board.set_fen`; `none`
models the exception raised on a malformed FEN string. -/
def set_fen (s : String) : Option Board :=
  if validFen s then some ⟨s⟩ else none

/-- Modelled from the spec: the components the dispatcher calls that are not
part of the reviewed source: the Opening Book mapping (`fen_dict`, a static
map from 4-field FEN keys to move strings), Move Search (`next_move`), the
rules library's coordinate-move application (`push_uci`, where `none` models
the exception raised on an illegal token), and the board rendering used by
the debug `d` command. -/
structure EngineCtx where
  book : String → Option String
  nextMove : Int → Board → String
  pushUci : Board → String → Option Board
  render : Board → String

/-- Outcome of one dispatcher call: normal return (with the resulting board
and the lines printed), process exit (`sys.exit()` on `quit`), or an uncaught
exception. -/
inductive CmdOutcome where
  | ok (board : Board) (out : List String)
  | exit
  | err
deriving DecidableEq, Repr

/-- Tokenization of communication.py `command`: split the stripped message on
single spaces and discard empty tokens. -/
def tokenize (msg : String) : List String :=
  (pySplitStr ' ' msg).filter (fun t => t ≠ "")

/-- The move-application loop of the `position` command: apply each token in
order with `push_uci`; an exception aborts the whole command. -/
def applyMoves (ctx : EngineCtx) : Board → List String → Option Board
  | b, [] => some b
  | b, mv :: rest =>
    match ctx.pushUci b mv with
    | some b2 => applyMoves ctx b2 rest
    | none => none

/-- The tail of the `position` command (source lines 70-75): if the token at
`moves_start` is not exactly `moves` (or is absent), return; otherwise apply
the remaining tokens as moves.  `Sum.inl` is an early return from `command`,
`Sum.inr` falls through with the updated board. -/
def movesSection (ctx : EngineCtx) (b : Board) (tokens : List String)
    (moves_start : Nat) : Sum CmdOutcome Board :=
  if tokens.length ≤ moves_start ∨ tokens.get? moves_start ≠ some "moves" then
    Sum.inl (CmdOutcome.ok b [])
  else
    match applyMoves ctx b (tokens.drop (moves_start + 1)) with
    | some b2 => Sum.inr b2
    | none => Sum.inl CmdOutcome.err

/-- The `position` command body (source lines 47-75). -/
def positionStep (ctx : EngineCtx) (board : Board) (tokens : List String) :
    Sum CmdOutcome Board :=
  if tokens.length < 2 then Sum.inl (CmdOutcome.ok board [])
  else if tokens.get? 1 = some "startpos" then
    movesSection ctx Board.initial tokens 2
  else if tokens.get? 1 = some "fen" then
    let fen := pyJoin ' ' (slice tokens 2 8)
    let revised_fen := pyJoin ' ' (slice tokens 2 6)
    match set_fen fen with
    | none => Sum.inl CmdOutcome.err
    | some b2 =>
      match ctx.book revised_fen with
      | some mv => Sum.inl (CmdOutcome.ok b2 ["bestmove " ++ mv])
      | none => movesSection ctx b2 tokens 8
  else Sum.inl (CmdOutcome.ok board [])

/-- The Opening Book key derivation of the `go` branch (source lines 83-85):
split the board's FEN on spaces and rejoin the first four fields. -/
def bookKeyOfFen (s : String) : String :=
  pyJoin ' ' ((pySplitStr ' ' s).take 4)

/-- The body of communication.py `command` after the initial
`msg = msg.strip()` reassignment: dispatch one stripped input line against
the current board.  Faithful to the source's control flow: the `position`
branch falls through to the `d` and `go` checks (which never fire for a
`position` line), and the `go` branch consults the Opening Book before
invoking Move Search. -/
def dispatch (ctx : EngineCtx) (depth : Int) (board : Board) (msg : String) :
    CmdOutcome :=
  let tokens := tokenize msg
  if msg = "quit" then CmdOutcome.exit
  else if msg = "uci" then
    CmdOutcome.ok board ["id name Sacai", "id author Sanchit Sehgal", "uciok"]
  else if msg = "isready" then CmdOutcome.ok board ["readyok"]
  else if msg = "ucinewgame" then CmdOutcome.ok board []
  else
    match
      (if pyStartsWith "position" msg then positionStep ctx board tokens
       else Sum.inr board) with
    | Sum.inl out => out
    | Sum.inr b1 =>
      let outD : List String :=
        if msg = "d" then [ctx.render b1, b1.fenStr] else []
      if strTake msg 2 = "go" then
        match ctx.book (bookKeyOfFen b1.fenStr) with
        | some mv => CmdOutcome.ok b1 (outD ++ ["bestmove " ++ mv])
        | none =>
          CmdOutcome.ok b1 (outD ++ ["bestmove " ++ ctx.nextMove depth b1])
      else CmdOutcome.ok b1 outD

/-- Communication.py `command`: strip the input line, then dispatch. -/
def command (ctx : EngineCtx) (depth : Int) (board : Board) (msg0 : String) :
    CmdOutcome :=
  dispatch ctx depth board (pyStrip msg0)

/-- Communication.py `get_depth`: argparse default 1 for a missing `--depth`
flag, then `max([2, int(args.depth)])`. -/
def get_depth (depthArg : Option Int) : Int :=
  max 2 (match depthArg with | some v => v | none => 1)

/-! ## Spec-side derived quantities and input classes -/

/-- Test for a queen standing on a square (spec wording: counting the queens
of both colors). -/
def isQueenAt (b : EBoard) (sq : Square) : Bool :=
  match b.pieceAt sq with
  | some p => p.pieceType = PieceType.queen
  | none => false

/-- Test for a minor piece (bishop or knight) standing on a square. -/
def isMinorAt (b : EBoard) (sq : Square) : Bool :=
  match b.pieceAt sq with
  | some p => p.pieceType = PieceType.bishop ∨ p.pieceType = PieceType.knight
  | none => false

/-- Total number of queens of both colors on the board (spec wording). -/
def queenCount (b : EBoard) : Nat := (SQUARES.filter (isQueenAt b)).length

/-- Total number of bishops plus knights of both colors on the board (spec
wording). -/
def minorCount (b : EBoard) : Nat := (SQUARES.filter (isMinorAt b)).length

/-- A stripped input line recognized by none of the dispatcher's branches. -/
def unrecognizedLine (m : String) : Prop :=
  m ≠ "quit" ∧ m ≠ "uci" ∧ m ≠ "isready" ∧ m ≠ "ucinewgame" ∧
  pyStartsWith "position" m = false ∧ m ≠ "d" ∧ strTake m 2 ≠ "go"

/-- A `position` line with fewer than 2 tokens. -/
def shortPositionLine (m : String) : Prop :=
  pyStartsWith "position" m = true ∧ (tokenize m).length < 2

/-- A `position` line whose second token is neither `startpos` nor `fen`. -/
def badPositionTypeLine (m : String) : Prop :=
  pyStartsWith "position" m = true ∧ 2 ≤ (tokenize m).length ∧
  (tokenize m).get? 1 ≠ some "startpos" ∧ (tokenize m).get? 1 ≠ some "fen"

/-! ## Concrete inputs used by witnesses and counterexamples -/

/-- Back-rank piece order of the standard initial position. -/
def backRank : Nat → PieceType
  | 0 => .rook
  | 1 => .knight
  | 2 => .bishop
  | 3 => .queen
  | 4 => .king
  | 5 => .bishop
  | 6 => .knight
  | _ => .rook

/-- Piece placement of the standard initial chess position (a1 = 0,
rank-major). -/
def initialPieceAt (sq : Square) : Option Piece :=
  let r := sq.val / 8
  let f := sq.val % 8
  if r = 0 then some ⟨backRank f, .white⟩
  else if r = 1 then some ⟨.pawn, .white⟩
  else if r = 6 then some ⟨.pawn, .black⟩
  else if r = 7 then some ⟨backRank f, .black⟩
  else none

/-- The standard initial chess position as an evaluator board. -/
def initialEBoard : EBoard :=
  { pieceAt := initialPieceAt
    turn := .white
    isCapture := fun _ => false
    isEnPassant := fun _ => false }

/-- A concrete engine context whose Opening Book is empty and whose move
application always fails. -/
def ctx0 : EngineCtx :=
  { book := fun _ => none
    nextMove := fun _ _ => "e2e4"
    pushUci := fun _ _ => none
    render := fun _ => "" }

/-- A concrete engine context whose Opening Book maps the empty-board key to
`d2d4` and whose move application always fails (so any attempted move
application would surface as an error outcome). -/
def ctxHit : EngineCtx :=
  { book := fun k => if k = "8/8/8/8/8/8/8/8 w - -" then some "d2d4" else none
    nextMove := fun _ _ => "e2e4"
    pushUci := fun _ _ => none
    render := fun _ => "" }

/-- A concrete board with a white pawn on a2 (square 8) and nothing else,
white to move, no capture flags. -/
def wEB : EBoard :=
  { pieceAt := fun sq => if sq.val = 8 then some ⟨.pawn, .white⟩ else none
    turn := .white
    isCapture := fun _ => false
    isEnPassant := fun _ => false }

/-- The quiet move a2a3 (8 → 16), no promotion. -/
def wMove : Move := ⟨⟨8, by decide⟩, ⟨16, by decide⟩, none⟩

/-- The white pawn standing on `wMove`'s origin square. -/
def wPiece : Piece := ⟨.pawn, .white⟩

/-- A concrete board with a white rook on a1 (square 0) and a black pawn on
b2 (square 9), every move flagged as a non-en-passant capture. -/
def cEB : EBoard :=
  { pieceAt := fun sq =>
      if sq.val = 0 then some ⟨.rook, .white⟩
      else if sq.val = 9 then some ⟨.pawn, .black⟩ else none
    turn := .white
    isCapture := fun _ => true
    isEnPassant := fun _ => false }

/-- The capturing move a1xb2 (0 → 9), no promotion. -/
def cMove : Move := ⟨⟨0, by decide⟩, ⟨9, by decide⟩, none⟩

/-! ## Helper lemmas: list indexing -/

theorem get?_isSome_of_lt {α : Type} {l : List α} {n : Nat} (h : n < l.length) :
    (l.get? n).isSome = true := by
  rw [List.get?_eq_get h]; rfl

theorem lt_length_of_get?_eq_some {α : Type} {l : List α} {n : Nat} {a : α}
    (h : l.get? n = some a) : n < l.length := by
  by_contra hlt
  push_neg at hlt
  rw [List.get?_eq_none.2 hlt] at h
  exact Option.noConfusion h

/-- Every piece-square table selected by `pieceTable` has at least 64
entries (the endgame queen tables have 66). -/
theorem pieceTable_length (p : Piece) (eg : Bool) :
    64 ≤ (pieceTable p eg).length := by
  obtain ⟨pt, c⟩ := p
  cases pt <;> cases c <;> cases eg <;> decide

/-- Table indexing inside `evaluate_piece` never goes out of range. -/
theorem evaluate_piece_total (p : Piece) (sq : Square) (eg : Bool) :
    (evaluate_piece p sq eg).isSome = true :=
  get?_isSome_of_lt (lt_of_lt_of_le sq.isLt (pieceTable_length p eg))

/-! ## Helper lemmas: the split / join string model -/

theorem pySplitChars_ne_nil (sep : Char) (cs : List Char) :
    pySplitChars sep cs ≠ [] := by
  induction cs with
  | nil => simp [pySplitChars]
  | cons c cs ih =>
    simp only [pySplitChars]
    cases hsp : pySplitChars sep cs with
    | nil => exact absurd hsp ih
    | cons t ts => by_cases hc : c = sep <;> simp [hc]

theorem pySplitChars_sep_cons (sep : Char) (r : List Char) :
    pySplitChars sep (sep :: r) = [] :: pySplitChars sep r := by
  simp only [pySplitChars]
  cases hsp : pySplitChars sep r with
  | nil => exact absurd hsp (pySplitChars_ne_nil sep r)
  | cons t ts => simp

theorem pySplitChars_cons_of_ne (sep c : Char) (r : List Char) (hc : c ≠ sep)
    {t : List Char} {ts : List (List Char)}
    (hsp : pySplitChars sep r = t :: ts) :
    pySplitChars sep (c :: r) = (c :: t) :: ts := by
  simp only [pySplitChars, hsp]
  simp [hc]

theorem sep_not_mem_pySplitChars (sep : Char) (cs : List Char) :
    ∀ l ∈ pySplitChars sep cs, sep ∉ l := by
  induction cs with
  | nil =>
    intro l hl
    simp only [pySplitChars, List.mem_singleton] at hl
    simp [hl]
  | cons c cs ih =>
    by_cases hc : c = sep
    · subst hc
      rw [pySplitChars_sep_cons]
      intro l hl
      rcases List.mem_cons.1 hl with rfl | hl
      · simp
      · exact ih l hl
    · cases hsp : pySplitChars sep cs with
      | nil => exact absurd hsp (pySplitChars_ne_nil sep cs)
      | cons t ts =>
        rw [pySplitChars_cons_of_ne sep c cs hc hsp]
        intro l hl
        rcases List.mem_cons.1 hl with rfl | hl
        · intro hmem
          rcases List.mem_cons.1 hmem with h | h
          · exact hc h.symm
          · exact ih t (hsp ▸ List.mem_cons_self t ts) h
        · exact ih l (hsp ▸ List.mem_cons_of_mem t hl)

theorem pySplitChars_of_not_mem (sep : Char) (l : List Char) (h : sep ∉ l) :
    pySplitChars sep l = [l] := by
  induction l with
  | nil => rfl
  | cons c cs ih =>
    have hc : c ≠ sep := fun e => h (e ▸ List.mem_cons_self c cs)
    have ihcs := ih (fun hm => h (List.mem_cons_of_mem c hm))
    rw [pySplitChars_cons_of_ne sep c cs hc ihcs]

theorem pySplitChars_append (sep : Char) (l r : List Char) (h : sep ∉ l) :
    pySplitChars sep (l ++ sep :: r) = l :: pySplitChars sep r := by
  induction l with
  | nil => simpa using pySplitChars_sep_cons sep r
  | cons c cs ih =>
    have hc : c ≠ sep := fun e => h (e ▸ List.mem_cons_self c cs)
    have ih' := ih (fun hm => h (List.mem_cons_of_mem c hm))
    cases hsp : pySplitChars sep (cs ++ sep :: r) with
    | nil => exact absurd hsp (pySplitChars_ne_nil sep _)
    | cons t ts =>
      rw [List.cons_append, pySplitChars_cons_of_ne sep c _ hc hsp]
      rw [hsp] at ih'
      obtain ⟨rfl, rfl⟩ : t = cs ∧ ts = pySplitChars sep r :=
        ⟨(List.cons.injEq _ _ _ _ ▸ ih').1, (List.cons.injEq _ _ _ _ ▸ ih').2⟩
      rfl

theorem pySplitChars_pyJoinChars (sep : Char) (ls : List (List Char))
    (hne : ls ≠ []) (h : ∀ l ∈ ls, sep ∉ l) :
    pySplitChars sep (pyJoinChars sep ls) = ls := by
  induction ls with
  | nil => exact absurd rfl hne
  | cons l ls ih =>
    cases ls with
    | nil =>
      simpa [pyJoinChars] using
        pySplitChars_of_not_mem sep l (h l (List.mem_cons_self l []))
    | cons l2 ls2 =>
      rw [pyJoinChars,
        pySplitChars_append sep l _ (h l (List.mem_cons_self l _)),
        ih (by simp) (fun x hx => h x (List.mem_cons_of_mem l hx))]

theorem pySplitStr_pyJoin (ls : List String) (hne : ls ≠ [])
    (h : ∀ s ∈ ls, ' ' ∉ s.data) :
    pySplitStr ' ' (pyJoin ' ' ls) = ls := by
  unfold pySplitStr pyJoin
  rw [show (String.mk (pyJoinChars ' ' (ls.map String.data))).data =
        pyJoinChars ' ' (ls.map String.data) from rfl]
  rw [pySplitChars_pyJoinChars ' ' (ls.map String.data)
    (by simpa using hne)
    (by intro l hl
        obtain ⟨s, hs, rfl⟩ := List.mem_map.1 hl
        exact h s hs)]
  rw [List.map_map]
  have : (String.mk ∘ String.data) = (id : String → String) := by
    funext s; rfl
  rw [this, List.map_id]

theorem tokenize_sep_free (m : String) : ∀ t ∈ tokenize m, ' ' ∉ t.data := by
  intro t ht
  have ht' := List.mem_of_mem_filter ht
  unfold pySplitStr at ht'
  obtain ⟨l, hl, rfl⟩ := List.mem_map.1 ht'
  exact sep_not_mem_pySplitChars ' ' m.data l hl

/-! ## Helper lemmas: dispatcher branch selection -/

theorem ne_of_strTake2 {m t : String} (s : String) (hm : strTake m 2 = t)
    (hs : strTake s 2 ≠ t) : m ≠ s :=
  fun e => hs (e ▸ hm)

theorem isPre_take {p m : List Char} (h : isPre p m = true) :
    m.take p.length = p := by
  induction p generalizing m with
  | nil => rfl
  | cons a as ih =>
    cases m with
    | nil => simp [isPre] at h
    | cons b bs =>
      simp only [isPre, Bool.and_eq_true, beq_iff_eq] at h
      obtain ⟨rfl, h2⟩ := h
      simp [List.take, ih h2]

theorem strTake2_of_position (m : String)
    (h : pyStartsWith "position" m = true) : strTake m 2 = "po" := by
  have h8 : m.data.take ("position".data.length) = "position".data :=
    isPre_take h
  have h2 : m.data.take 2 = ['p', 'o'] := by
    have := congrArg (List.take 2) h8
    rwa [List.take_take, show min 2 ("position".data.length) = 2 from rfl] at this
  unfold strTake
  rw [h2]

theorem dispatch_go (ctx : EngineCtx) (depth : Int) (board : Board)
    (msg : String) (hgo : strTake msg 2 = "go") :
    dispatch ctx depth board msg =
      (match ctx.book (bookKeyOfFen board.fenStr) with
       | some mv => CmdOutcome.ok board ["bestmove " ++ mv]
       | none =>
         CmdOutcome.ok board ["bestmove " ++ ctx.nextMove depth board]) := by
  have h1 : msg ≠ "quit" := ne_of_strTake2 "quit" hgo (by decide)
  have h2 : msg ≠ "uci" := ne_of_strTake2 "uci" hgo (by decide)
  have h3 : msg ≠ "isready" := ne_of_strTake2 "isready" hgo (by decide)
  have h4 : msg ≠ "ucinewgame" := ne_of_strTake2 "ucinewgame" hgo (by decide)
  have h5 : pyStartsWith "position" msg = false := by
    cases hp : pyStartsWith "position" msg
    · rfl
    · have hpo := strTake2_of_position msg hp
      rw [hpo] at hgo
      exact absurd hgo (by decide)
  have h6 : msg ≠ "d" := ne_of_strTake2 "d" hgo (by decide)
  simp only [dispatch, if_neg h1, if_neg h2, if_neg h3, if_neg h4, h5,
    Bool.false_eq_true, if_false, if_neg h6, if_pos hgo, List.nil_append]

theorem dispatch_position_fen (ctx : EngineCtx) (depth : Int) (board : Board)
    (msg : String) (hpos : pyStartsWith "position" msg = true)
    (hfen : (tokenize msg).get? 1 = some "fen") :
    dispatch ctx depth board msg =
      (match set_fen (pyJoin ' ' (slice (tokenize msg) 2 8)) with
       | none => CmdOutcome.err
       | some b2 =>
         match ctx.book (pyJoin ' ' (slice (tokenize msg) 2 6)) with
         | some mv => CmdOutcome.ok b2 ["bestmove " ++ mv]
         | none =>
           match movesSection ctx b2 (tokenize msg) 8 with
           | Sum.inl out => out
           | Sum.inr b1 => CmdOutcome.ok b1 []) := by
  have hpo : strTake msg 2 = "po" := strTake2_of_position msg hpos
  have h1 : msg ≠ "quit" := ne_of_strTake2 "quit" hpo (by decide)
  have h2 : msg ≠ "uci" := ne_of_strTake2 "uci" hpo (by decide)
  have h3 : msg ≠ "isready" := ne_of_strTake2 "isready" hpo (by decide)
  have h4 : msg ≠ "ucinewgame" := ne_of_strTake2 "ucinewgame" hpo (by decide)
  have h6 : msg ≠ "d" := ne_of_strTake2 "d" hpo (by decide)
  have h7 : ¬ strTake msg 2 = "go" := by rw [hpo]; decide
  have hlt : ¬ (tokenize msg).length < 2 := by
    have := lt_length_of_get?_eq_some hfen
    omega
  have hstart : ¬ (tokenize msg).get? 1 = some "startpos" := by
    rw [hfen]; simp
  simp only [dispatch, if_neg h1, if_neg h2, if_neg h3, if_neg h4,
    if_pos hpos, positionStep, if_neg hlt, if_neg hstart, if_pos hfen]
  cases hsf : set_fen (pyJoin ' ' (slice (tokenize msg) 2 8)) with
  | none => simp
  | some b2 =>
    cases hbk : ctx.book (pyJoin ' ' (slice (tokenize msg) 2 6)) with
    | some mv => simp
    | none =>
      cases hms : movesSection ctx b2 (tokenize msg) 8 with
      | inl out => simp [hms]
      | inr b1 => simp [hms, if_neg h6, if_neg h7]

theorem dispatch_unrecognized (ctx : EngineCtx) (depth : Int) (board : Board)
    (msg : String) (h : unrecognizedLine msg) :
    dispatch ctx depth board msg = CmdOutcome.ok board [] := by
  obtain ⟨h1, h2, h3, h4, h5, h6, h7⟩ := h
  simp only [dispatch, if_neg h1, if_neg h2, if_neg h3, if_neg h4, h5,
    Bool.false_eq_true, if_false, if_neg h6, if_neg h7]

theorem dispatch_position_short (ctx : EngineCtx) (depth : Int)
    (board : Board) (msg : String)
    (hpos : pyStartsWith "position" msg = true)
    (hlen : (tokenize msg).length < 2) :
    dispatch ctx depth board msg = CmdOutcome.ok board [] := by
  have hpo : strTake msg 2 = "po" := strTake2_of_position msg hpos
  have h1 : msg ≠ "quit" := ne_of_strTake2 "quit" hpo (by decide)
  have h2 : msg ≠ "uci" := ne_of_strTake2 "uci" hpo (by decide)
  have h3 : msg ≠ "isready" := ne_of_strTake2 "isready" hpo (by decide)
  have h4 : msg ≠ "ucinewgame" := ne_of_strTake2 "ucinewgame" hpo (by decide)
  simp only [dispatch, if_neg h1, if_neg h2, if_neg h3, if_neg h4,
    if_pos hpos, positionStep, if_pos hlen]

theorem dispatch_position_bad (ctx : EngineCtx) (depth : Int)
    (board : Board) (msg : String)
    (hpos : pyStartsWith "position" msg = true)
    (hlen : 2 ≤ (tokenize msg).length)
    (hsp : (tokenize msg).get? 1 ≠ some "startpos")
    (hf : (tokenize msg).get? 1 ≠ some "fen") :
    dispatch ctx depth board msg = CmdOutcome.ok board [] := by
  have hpo : strTake msg 2 = "po" := strTake2_of_position msg hpos
  have h1 : msg ≠ "quit" := ne_of_strTake2 "quit" hpo (by decide)
  have h2 : msg ≠ "uci" := ne_of_strTake2 "uci" hpo (by decide)
  have h3 : msg ≠ "isready" := ne_of_strTake2 "isready" hpo (by decide)
  have h4 : msg ≠ "ucinewgame" := ne_of_strTake2 "ucinewgame" hpo (by decide)
  have hlt : ¬ (tokenize msg).length < 2 := by omega
  simp only [dispatch, if_neg h1, if_neg h2, if_neg h3, if_neg h4,
    if_pos hpos, positionStep, if_neg hlt, if_neg hsp, if_neg hf]

/-! ## Helper lemmas: piece counting -/

theorem endGameStep_eq (b : EBoard) (c : Nat × Nat) (sq : Square) :
    endGameStep b c sq =
      (c.1 + (if isQueenAt b sq then 1 else 0),
       c.2 + (if isMinorAt b sq then 1 else 0)) := by
  unfold endGameStep isQueenAt isMinorAt
  cases hp : b.pieceAt sq with
  | none => simp
  | some p =>
    by_cases hq : p.pieceType = PieceType.queen <;>
      by_cases hm : p.pieceType = PieceType.bishop ∨
        p.pieceType = PieceType.knight <;>
      simp [hq, hm]

theorem endGameFold (b : EBoard) (l : List Square) (q m : Nat) :
    l.foldl (endGameStep b) (q, m) =
      (q + (l.filter (isQueenAt b)).length,
       m + (l.filter (isMinorAt b)).length) := by
  induction l generalizing q m with
  | nil => simp
  | cons sq l ih =>
    rw [List.foldl_cons, endGameStep_eq, ih]
    by_cases hq : isQueenAt b sq <;> by_cases hm : isMinorAt b sq <;>
      simp [List.filter_cons, hq, hm] <;> omega

/-! ## Claim C1 -/

/-- C1: for every line whose first two characters (after the dispatcher's
initial strip) are `go`, the dispatcher derives the 4-field Opening Book key
from the current board's FEN; on a book hit it prints `bestmove <entry>` and
returns without invoking Move Search (the outcome is identical for every
Move Search function), and on a miss it prints `bestmove` followed by the
move returned by `next_move` at the fixed depth on the current board.  All
further tokens of the line are ignored (the conclusion does not depend on
the rest of the line) and the board is unchanged. -/
theorem c1_go_dispatch (ctx : EngineCtx) (depth : Int) (board : Board)
    (msg0 : String) (hgo : strTake (pyStrip msg0) 2 = "go") :
    (∀ entry, ctx.book (bookKeyOfFen board.fenStr) = some entry →
      ∀ nm, command { ctx with nextMove := nm } depth board msg0 =
        CmdOutcome.ok board ["bestmove " ++ entry]) ∧
    (ctx.book (bookKeyOfFen board.fenStr) = none →
      command ctx depth board msg0 =
        CmdOutcome.ok board ["bestmove " ++ ctx.nextMove depth board]) := by
  constructor
  · intro entry hhit nm
    rw [command, dispatch_go { ctx with nextMove := nm } depth board _ hgo]
    have hb : ({ ctx with nextMove := nm } : EngineCtx).book = ctx.book := rfl
    rw [hb, hhit]
  · intro hmiss
    rw [command, dispatch_go ctx depth board _ hgo, hmiss]

/-- C1 witness: a concrete `go` line against the empty-board position with a
context whose book holds that position. -/
theorem c1_witness :
    (∀ entry,
      ctxHit.book (bookKeyOfFen (Board.mk "8/8/8/8/8/8/8/8 w - - 0 1").fenStr) =
          some entry →
      ∀ nm, command { ctxHit with nextMove := nm } 2
          (Board.mk "8/8/8/8/8/8/8/8 w - - 0 1") "go depth 9" =
        CmdOutcome.ok (Board.mk "8/8/8/8/8/8/8/8 w - - 0 1")
          ["bestmove " ++ entry]) ∧
    (ctxHit.book (bookKeyOfFen (Board.mk "8/8/8/8/8/8/8/8 w - - 0 1").fenStr) =
        none →
      command ctxHit 2 (Board.mk "8/8/8/8/8/8/8/8 w - - 0 1") "go depth 9" =
        CmdOutcome.ok (Board.mk "8/8/8/8/8/8/8/8 w - - 0 1")
          ["bestmove " ++
            ctxHit.nextMove 2 (Board.mk "8/8/8/8/8/8/8/8 w - - 0 1")]) :=
  c1_go_dispatch ctxHit 2 (Board.mk "8/8/8/8/8/8/8/8 w - - 0 1") "go depth 9"
    (by decide)

/-! ## Claim C2 -/

/-- C2: for every board and every move whose origin square is occupied: a
promotion move is valued at positive infinity when white is to move and
negative infinity when black is to move, regardless of the rest of the
position; a non-promotion non-capture move is valued at the moving piece's
piece-square value at the destination minus its value at the origin (with
the supplied endgame flag), negated when black is to move. -/
theorem c2_move_value (b : EBoard) (m : Move) (eg : Bool) (p : Piece)
    (h : b.pieceAt m.fromSq = some p) :
    (m.promotion.isSome = true →
      move_value b m eg =
        some (if b.turn = Color.white then MoveVal.posInf
          else MoveVal.negInf)) ∧
    (m.promotion = none → b.isCapture m = false →
      ∃ fv tv, evaluate_piece p m.fromSq eg = some fv ∧
        evaluate_piece p m.toSq eg = some tv ∧
        move_value b m eg =
          some (MoveVal.fin
            (if b.turn = Color.black then -(tv - fv) else tv - fv))) := by
  constructor
  · intro hp
    unfold move_value
    rw [if_pos hp]
    cases hbt : b.turn <;> simp [hbt]
  · intro hpn hcap
    obtain ⟨fv, hfv⟩ :=
      Option.isSome_iff_exists.1 (evaluate_piece_total p m.fromSq eg)
    obtain ⟨tv, htv⟩ :=
      Option.isSome_iff_exists.1 (evaluate_piece_total p m.toSq eg)
    refine ⟨fv, tv, hfv, htv, ?_⟩
    simp [move_value, hpn, h, hfv, htv, hcap]

/-- C2 witness: the quiet pawn move a2a3 on a board holding only that white
pawn. -/
theorem c2_witness :
    (wMove.promotion.isSome = true →
      move_value wEB wMove false =
        some (if wEB.turn = Color.white then MoveVal.posInf
          else MoveVal.negInf)) ∧
    (wMove.promotion = none → wEB.isCapture wMove = false →
      ∃ fv tv, evaluate_piece wPiece wMove.fromSq false = some fv ∧
        evaluate_piece wPiece wMove.toSq false = some tv ∧
        move_value wEB wMove false =
          some (MoveVal.fin
            (if wEB.turn = Color.black then -(tv - fv) else tv - fv))) :=
  c2_move_value wEB wMove false wPiece rfl

/-! ## Claim C3 -/

/-- C3: `check_end_game` returns true iff the board has zero queens in
total, or exactly two queens in total and at most one minor piece (bishop or
knight) in total; it returns false in every other case. -/
theorem c3_check_end_game (b : EBoard) :
    check_end_game b = true ↔
      (queenCount b = 0 ∨ (queenCount b = 2 ∧ minorCount b ≤ 1)) := by
  unfold check_end_game queenCount minorCount
  rw [endGameFold b SQUARES 0 0]
  simp

/-! ## Claim C4 -/

/-- C4 counterexample: on the standard initial chess position,
`evaluate_board` returns -30, not 0 (the shared, unreversed knight table is
asymmetric: b1 and g1 are worth -40 while b8 and g8 are worth -25). -/
theorem c4_counterexample :
    evaluate_board initialEBoard = some (-30) ∧
    ¬ evaluate_board initialEBoard = some 0 := by
  decide

/-- C4 (amended): for the standard initial chess position, `evaluate_board`
returns exactly -30. -/
theorem c4_initial_eval : evaluate_board initialEBoard = some (-30) := by
  decide

/-! ## Claim C5 -/

/-- C5: for every board and every capturing move: an en-passant capture is
valued at exactly the pawn material value 112, independent of which piece is
capturing; otherwise, when both destination and origin are occupied, the
value is the captured piece's material value minus the capturing piece's. -/
theorem c5_evaluate_capture (b : EBoard) (m : Move)
    (_hc : b.isCapture m = true) :
    (b.isEnPassant m = true → evaluate_capture b m = some 112) ∧
    (b.isEnPassant m = false → ∀ pt pf, b.pieceAt m.toSq = some pt →
      b.pieceAt m.fromSq = some pf →
      evaluate_capture b m =
        some (piece_value pt.pieceType - piece_value pf.pieceType)) := by
  constructor
  · intro hep
    unfold evaluate_capture
    rw [if_pos hep]
    rfl
  · intro hep pt pf hto hfrom
    simp [evaluate_capture, hep, hto, hfrom]

/-- C5 witness: the rook-takes-pawn capture a1xb2 on a concrete board. -/
theorem c5_witness :
    (cEB.isEnPassant cMove = true → evaluate_capture cEB cMove = some 112) ∧
    (cEB.isEnPassant cMove = false → ∀ pt pf,
      cEB.pieceAt cMove.toSq = some pt →
      cEB.pieceAt cMove.fromSq = some pf →
      evaluate_capture cEB cMove =
        some (piece_value pt.pieceType - piece_value pf.pieceType)) :=
  c5_evaluate_capture cEB cMove rfl

/-! ## Claim C6 -/

/-- C6: for every `position fen <6 fields> [moves ...]` line whose 4-field
key (tokens 2..5 joined by single spaces) is present in the Opening Book,
the dispatcher prints `bestmove <entry>` and returns without applying any
queued move token: the resulting board is exactly the one loaded from the
6-field FEN (the conclusion holds for every move-application function, so
Move application is never invoked). -/
theorem c6_position_fen_book_hit (ctx : EngineCtx) (depth : Int)
    (board : Board) (msg0 : String) (entry : String)
    (hpos : pyStartsWith "position" (pyStrip msg0) = true)
    (hfen : (tokenize (pyStrip msg0)).get? 1 = some "fen")
    (hvalid : validFen (pyJoin ' ' (slice (tokenize (pyStrip msg0)) 2 8)) = true)
    (hhit : ctx.book (pyJoin ' ' (slice (tokenize (pyStrip msg0)) 2 6)) =
      some entry) :
    command ctx depth board msg0 =
      CmdOutcome.ok
        (Board.mk (pyJoin ' ' (slice (tokenize (pyStrip msg0)) 2 8)))
        ["bestmove " ++ entry] := by
  rw [command, dispatch_position_fen ctx depth board _ hpos hfen]
  simp only [set_fen, if_pos hvalid, hhit]

/-- C6 witness: a concrete `position fen … moves e7e5` line hitting the
book, in a context whose move application always fails (so the outcome
being a normal return also confirms no queued move was applied). -/
theorem c6_witness :
    command ctxHit 2 Board.initial
      "position fen 8/8/8/8/8/8/8/8 w - - 0 1 moves e7e5" =
      CmdOutcome.ok (Board.mk "8/8/8/8/8/8/8/8 w - - 0 1")
        ["bestmove d2d4"] :=
  (c6_position_fen_book_hit ctxHit 2 Board.initial
    "position fen 8/8/8/8/8/8/8/8 w - - 0 1 moves e7e5" "d2d4"
    (by decide) (by decide) (by decide) (by decide)).trans (by decide)

/-! ## Claim C7 -/

/-- C7 counterexample: the line `position fen` has fewer than 6 FEN fields,
yet the dispatcher does not do nothing: it passes the malformed (empty) FEN
string to the board's FEN parser, whose failure propagates as an uncaught
exception instead of a silent no-op. -/
theorem c7_counterexample :
    command ctx0 2 Board.initial "position fen" = CmdOutcome.err ∧
    command ctx0 2 Board.initial "position fen" ≠
      CmdOutcome.ok Board.initial [] := by
  decide

/-- C7 (amended): for every unrecognized input line, every `position`
command with fewer than 2 tokens, and every `position` command whose second
token is neither `startpos` nor `fen`, the dispatcher does nothing: no
output, the board is unchanged, and no exception is raised.  (A
`position fen` line with fewer than 6 FEN fields is NOT such a case: it
reaches the FEN parser with a malformed string and the parse failure
propagates.) -/
theorem c7_malformed (ctx : EngineCtx) (depth : Int) (board : Board)
    (msg0 : String)
    (h : unrecognizedLine (pyStrip msg0) ∨ shortPositionLine (pyStrip msg0) ∨
      badPositionTypeLine (pyStrip msg0)) :
    command ctx depth board msg0 = CmdOutcome.ok board [] := by
  rw [command]
  rcases h with h | h | h
  · exact dispatch_unrecognized ctx depth board _ h
  · exact dispatch_position_short ctx depth board _ h.1 h.2
  · exact dispatch_position_bad ctx depth board _ h.1 h.2.1 h.2.2.1 h.2.2.2

/-- C7 witness: the unrecognized line `banana` is a silent no-op. -/
theorem c7_witness :
    command ctx0 2 Board.initial "banana" = CmdOutcome.ok Board.initial [] :=
  c7_malformed ctx0 2 Board.initial "banana"
    (Or.inl ⟨by decide, by decide, by decide, by decide, by decide,
      by decide, by decide⟩)

/-! ## Claim C8 -/

/-- C8: for every `position fen <6 fields>` line (exactly 8 tokens, a valid
FEN) whose key misses the Opening Book, the dispatcher loads the joined
6-field FEN into the board, and the 4-field key that the `go` branch would
derive from that board's FEN (`bookKeyOfFen`) equals the 4-field key the
`position` branch derived from tokens 2..5 of the command. -/
theorem c8_key_roundtrip (ctx : EngineCtx) (depth : Int) (board : Board)
    (msg0 : String)
    (hpos : pyStartsWith "position" (pyStrip msg0) = true)
    (hfen : (tokenize (pyStrip msg0)).get? 1 = some "fen")
    (hlen : (tokenize (pyStrip msg0)).length = 8)
    (hvalid : validFen (pyJoin ' ' (slice (tokenize (pyStrip msg0)) 2 8)) = true)
    (hmiss : ctx.book (pyJoin ' ' (slice (tokenize (pyStrip msg0)) 2 6)) =
      none) :
    command ctx depth board msg0 =
      CmdOutcome.ok
        (Board.mk (pyJoin ' ' (slice (tokenize (pyStrip msg0)) 2 8))) [] ∧
    bookKeyOfFen (pyJoin ' ' (slice (tokenize (pyStrip msg0)) 2 8)) =
      pyJoin ' ' (slice (tokenize (pyStrip msg0)) 2 6) := by
  constructor
  · rw [command, dispatch_position_fen ctx depth board _ hpos hfen]
    simp only [set_fen, if_pos hvalid, hmiss]
    unfold movesSection
    rw [if_pos (Or.inl (le_of_eq hlen))]
  · have hsub : ∀ s ∈ slice (tokenize (pyStrip msg0)) 2 8, ' ' ∉ s.data := by
      intro s hs
      exact tokenize_sep_free (pyStrip msg0) s
        (List.drop_subset 2 _ (List.take_subset _ _ hs))
    have hne : slice (tokenize (pyStrip msg0)) 2 8 ≠ [] := by
      have hlen6 : (slice (tokenize (pyStrip msg0)) 2 8).length = 6 := by
        unfold slice
        rw [List.length_take, List.length_drop, hlen]
        decide
      intro he
      rw [he] at hlen6
      exact absurd hlen6 (by decide)
    unfold bookKeyOfFen
    rw [pySplitStr_pyJoin _ hne hsub]
    unfold slice
    rw [List.take_take]
    norm_num

/-- C8 witness: a concrete book-missing `position fen` line followed by the
key comparison. -/
theorem c8_witness :
    command ctx0 2 Board.initial "position fen 8/8/8/8/8/8/8/8 w - - 0 1" =
      CmdOutcome.ok (Board.mk "8/8/8/8/8/8/8/8 w - - 0 1") [] ∧
    bookKeyOfFen "8/8/8/8/8/8/8/8 w - - 0 1" = "8/8/8/8/8/8/8/8 w - -" := by
  have h := c8_key_roundtrip ctx0 2 Board.initial
    "position fen 8/8/8/8/8/8/8/8 w - - 0 1"
    (by decide) (by decide) (by decide) (by decide) (by decide)
  have e1 : pyJoin ' '
      (slice (tokenize (pyStrip "position fen 8/8/8/8/8/8/8/8 w - - 0 1")) 2 8) =
      "8/8/8/8/8/8/8/8 w - - 0 1" := by decide
  have e2 : pyJoin ' '
      (slice (tokenize (pyStrip "position fen 8/8/8/8/8/8/8/8 w - - 0 1")) 2 6) =
      "8/8/8/8/8/8/8/8 w - -" := by decide
  rw [e1, e2] at h
  exact h

/-! ## Claim C9 -/

/-- C9: the effective search depth computed at startup is
`max(2, parsed --depth value)`: 2 with no flag (argparse default 1), 2 with
`--depth 1`, and 5 with `--depth 5`. -/
theorem c9_depth :
    get_depth none = 2 ∧ get_depth (some 1) = 2 ∧ get_depth (some 5) = 5 ∧
    ∀ v : Int, get_depth (some v) = max 2 v :=
  ⟨by decide, by decide, by decide, fun _ => rfl⟩

/-! ## Claim C10 -/

/-- C10 counterexample: the endgame queen table for white has 66 entries,
not 65 as the claim states (and its black counterpart, the full reversal,
likewise has 66). -/
theorem c10_counterexample :
    queenEvalEndGameWhite.length = 66 ∧
    ¬ queenEvalEndGameWhite.length = 65 := by
  decide

/-- C10 (amended): for every piece of the six standard types, every square
index 0..63 and either endgame flag, `evaluate_piece` returns a value
without any out-of-range table access — including the queen endgame case,
where the white table contains 66 entries and the black table is its full
66-entry reversal, so indexing by any square 0..63 still succeeds. -/
theorem c10_evaluate_piece_safe :
    (∀ (p : Piece) (sq : Square) (eg : Bool),
      (evaluate_piece p sq eg).isSome = true) ∧
    queenEvalEndGameWhite.length = 66 ∧
    queenEvalEndGameBlack = queenEvalEndGameWhite.reverse ∧
    queenEvalEndGameBlack.length = 66 :=
  ⟨evaluate_piece_total, by decide, rfl, by decide⟩

end Sacai
